import Mathlib

/-!
Shallow embedding of the `FerreteriaSearchSystem` search engine (catalog
normalization, inverted-index construction, AND-query resolution, weighted
scoring, thresholding/ranking, insertion-order query cache, and batched
result delivery) from the repository's main script.

Modeling conventions:
* JS strings are Lean `String`s; all operations are implemented on their
  character lists so that every definition evaluates by kernel reduction.
* JS numbers are `ℚ`.  The engine only ever builds non-integral rationals
  by dividing an integer by a constant, which is written `Rat.divInt`
  (definitionally equal to `/` on `ℚ`; see `divInt_eq_div_cast` below).
  All weights are small integers, so exact rational arithmetic coincides
  with the script's float arithmetic on every comparison it performs.
* JSON record fields are `JVal` (string / number / null / absent).  The
  script calls `.toLowerCase()` on the text fields, which throws on
  non-string values, so text fields are modeled as string-or-absent.
* JS `Map` (insertion-ordered) is an association list, oldest entry first.
* Mutable arrays are modeled by an explicit heap: a list of arrays
  addressed by allocation index.  `state.results` and the cache hold
  references into that heap, which captures the aliasing between a
  cache hit and the current result list.
* `Array.prototype.sort` is stable (ES2019); a stable sort's output is
  uniquely determined by the comparator's total preorder, so it is
  modeled by `List.insertionSort`, which is also stable.
-/

/-- JS whitespace (`\s`), restricted to the ASCII whitespace characters;
normalized catalog text only ever contains plain spaces. -/
def jsIsWS (c : Char) : Bool :=
  c == ' ' || c == '\t' || c == '\n' || c == '\r' || c == '\x0b' || c == '\x0c'

/-- Helper for `jsSplitWS`: `inWS` records whether we are inside a run of
whitespace (whose characters are skipped); `acc` is the current token,
reversed. -/
def jsSplitWSAux : Bool → List Char → List Char → List String
  | _, [], acc => [String.mk acc.reverse]
  | inWS, c :: cs, acc =>
    if jsIsWS c then
      if inWS then jsSplitWSAux true cs []
      else String.mk acc.reverse :: jsSplitWSAux true cs []
    else jsSplitWSAux false cs (c :: acc)

/-- JS `str.split(/\s+/)`: splits on maximal whitespace runs; a leading
(resp. trailing) run contributes a leading (resp. trailing) empty string,
and `"".split(/\s+/)` is `[""]`. -/
def jsSplitWS (s : String) : List String :=
  jsSplitWSAux false s.toList []

/-- JS `str.trim()` (used on `codigo`/`descripcion`/`rubro`/`marca`). -/
def jsTrim (s : String) : String :=
  String.mk (((s.toList.dropWhile (fun c => jsIsWS c)).reverse.dropWhile
    (fun c => jsIsWS c)).reverse)

/-- JS `toLowerCase` on the ASCII range plus the precomposed Latin letters
that occur in Spanish catalog text. -/
def jsLowerChar (c : Char) : Char :=
  if 'A' ≤ c ∧ c ≤ 'Z' then Char.ofNat (c.toNat + 32)
  else match c with
    | 'Á' => 'á' | 'É' => 'é' | 'Í' => 'í' | 'Ó' => 'ó' | 'Ú' => 'ú'
    | 'Ü' => 'ü' | 'Ñ' => 'ñ' | 'À' => 'à' | 'È' => 'è' | 'Ì' => 'ì'
    | 'Ò' => 'ò' | 'Ù' => 'ù' | 'Ä' => 'ä' | 'Ë' => 'ë' | 'Ï' => 'ï'
    | 'Ö' => 'ö' | 'Â' => 'â' | 'Ê' => 'ê' | 'Î' => 'î' | 'Ô' => 'ô'
    | 'Û' => 'û' | 'Ç' => 'ç'
    | _ => c

/-- NFD decomposition followed by removal of the combining marks
U+0300–U+036F (`normalize('NFD').replace(/[̀-ͯ]/g,'')`), modeled
per character for the precomposed Latin letters above; a character already
in the combining range is removed. -/
def nfdStripChar (c : Char) : List Char :=
  if 0x300 ≤ c.toNat ∧ c.toNat ≤ 0x36F then []
  else match c with
    | 'á' | 'à' | 'ä' | 'â' => ['a']
    | 'é' | 'è' | 'ë' | 'ê' => ['e']
    | 'í' | 'ì' | 'ï' | 'î' => ['i']
    | 'ó' | 'ò' | 'ö' | 'ô' => ['o']
    | 'ú' | 'ù' | 'ü' | 'û' => ['u']
    | 'ñ' => ['n']
    | 'ç' => ['c']
    | _ => [c]

/-- `normalizeText`: lowercase, then strip accents via NFD. -/
def normalizeText (s : String) : String :=
  String.mk ((s.toList.map jsLowerChar).flatMap nfdStripChar)

/-- Lowercase-alphanumeric test: the character class `[a-z0-9]`. -/
def isAlnumLower (c : Char) : Bool :=
  ('a' ≤ c && c ≤ 'z') || ('0' ≤ c && c ≤ '9')

/-- Helper modeling `.replace(/\s+/g, ' ')`: each maximal whitespace run
becomes one space. -/
def collapseWSAux : Bool → List Char → List Char
  | _, [] => []
  | inWS, c :: cs =>
    if jsIsWS c then
      if inWS then collapseWSAux true cs
      else ' ' :: collapseWSAux true cs
    else c :: collapseWSAux false cs

/-- `normalizeSearchText`: `normalizeText`, then `[^a-z0-9\s]` replaced by a
space, whitespace runs collapsed to one space, trimmed. -/
def normalizeSearchText (s : String) : String :=
  jsTrim (String.mk (collapseWSAux false
    ((normalizeText s).toList.map
      (fun c => if isAlnumLower c || jsIsWS c then c else ' '))))

/-- Decimal digit test. -/
def isDigitCh (c : Char) : Bool := '0' ≤ c && c ≤ '9'

/-- Value of a digit string (none if any character is not a digit). -/
def digitsToNatAux : Nat → List Char → Option Nat
  | acc, [] => some acc
  | acc, c :: cs =>
    if isDigitCh c then digitsToNatAux (acc * 10 + (c.toNat - 48)) cs
    else none

/-- JS `Number(string)` on the decimal forms that occur in catalog data:
optional surrounding whitespace, optional sign, digits with an optional
fractional part (`""` and whitespace-only coerce to 0; `"12"`, `"-3.5"`,
`".5"`, `"12."` parse; anything else — including the hex/exponent forms,
which are not modeled — is NaN, returned as `none`). -/
def strToNum (s : String) : Option ℚ :=
  let cs := (jsTrim s).toList
  if cs.isEmpty then some 0
  else
    let sign : Int := if cs.head? = some '-' then -1 else 1
    let body := if cs.head? = some '-' ∨ cs.head? = some '+' then cs.tail else cs
    if body.isEmpty then none
    else
      let ip := body.takeWhile (fun c => !(c == '.'))
      let rest := body.dropWhile (fun c => !(c == '.'))
      match rest with
      | [] =>
        (digitsToNatAux 0 ip).map (fun v => Rat.divInt (sign * (v : Int)) 1)
      | _ :: frac =>
        if frac.any (fun c => c == '.') then none
        else if ip.isEmpty ∧ frac.isEmpty then none
        else
          match digitsToNatAux 0 ip, digitsToNatAux 0 frac with
          | some iv, some fv =>
            some (Rat.divInt (sign * ((iv * 10 ^ frac.length + fv : Nat) : Int))
              ((10 ^ frac.length : Nat) : Int))
          | _, _ => none

/-- A JSON field value of a raw catalog record: a string, a (finite)
number, `null`, or absent (`undefined`). -/
inductive JVal where
  | jstr (s : String)
  | jnum (q : ℚ)
  | jnull
  | jundef
deriving DecidableEq

/-- JS truthiness of a `JVal` (`""`, `0`, `null`, `undefined` are falsy). -/
def JVal.truthy : JVal → Bool
  | .jstr s => !(s == "")
  | .jnum q => !(q == 0)
  | .jnull => false
  | .jundef => false

/-- JS `Number(v)`; `none` models NaN (`Number(undefined)` and
non-numeric strings). -/
def JVal.toNumber : JVal → Option ℚ
  | .jstr s => strToNum s
  | .jnum q => some q
  | .jnull => some 0
  | .jundef => none

/-- A raw catalog record as fetched from `products.json`.  The script calls
`toLowerCase()` on `codigo`/`descripcion`/`marca`/`rubro` (which throws on a
non-string), so the text fields are modeled as present-string-or-absent;
`precio_venta` is an arbitrary JSON value. -/
structure RawProduct where
  codigo : Option String
  descripcion : Option String
  rubro : Option String
  marca : Option String
  precio_venta : JVal
deriving DecidableEq

/-- JS truthiness of an optional string field. -/
def optTruthy : Option String → Bool
  | none => false
  | some s => !(s == "")

/-- Template-literal interpolation `${x}`: an absent field prints as the
string `"undefined"`. -/
def optTmpl : Option String → String
  | none => "undefined"
  | some s => s

/-- A normalized catalog item.  The script stores the display fields in
`state.products[i]` and the derived search fields in
`state.normalizedData[i]`; the display fields it keeps are exactly the
trimmed copies also present here, so both records are merged into one. -/
structure Item where
  codigo : String
  descripcion : String
  rubro : String
  marca : String
  precio_venta : ℚ
  searchText : String
  codigoNormalized : String
  descripcionNormalized : String
  marcaNormalized : String
  rubroNormalized : String
deriving DecidableEq, Inhabited

/-- The per-record step of `processProducts`: a record any of whose
`codigo` / `descripcion` / `precio_venta` fields is falsy is dropped
(`!product.codigo || !product.descripcion || !product.precio_venta`);
otherwise the normalized item is built.  `price` is `Number(x) || 0`,
i.e. the numeric coercion with NaN collapsed to 0 (and 0 mapped to 0). -/
def normalizeRecord (p : RawProduct) : Option Item :=
  if optTruthy p.codigo && optTruthy p.descripcion && p.precio_venta.truthy then
    some {
      codigo := jsTrim (p.codigo.getD "")
      descripcion := jsTrim (p.descripcion.getD "")
      rubro := jsTrim (p.rubro.getD "")
      marca := jsTrim (p.marca.getD "")
      precio_venta := (p.precio_venta.toNumber).getD 0
      searchText := normalizeSearchText
        (optTmpl p.codigo ++ " " ++ optTmpl p.descripcion ++ " " ++
         optTmpl p.marca ++ " " ++ optTmpl p.rubro)
      codigoNormalized := normalizeText (p.codigo.getD "")
      descripcionNormalized := normalizeText (p.descripcion.getD "")
      marcaNormalized := normalizeText (p.marca.getD "")
      rubroNormalized := normalizeText (p.rubro.getD "") }
  else none

/-- `processProducts`: normalize the raw catalog, silently dropping
incomplete records, preserving relative order. -/
def processProducts (ps : List RawProduct) : List Item :=
  ps.filterMap normalizeRecord

/-- First-occurrence deduplication, the iteration order of a JS `Set`
built from a list. -/
def dedupFirstAux : List String → List String → List String
  | _, [] => []
  | seen, x :: xs =>
    if seen.contains x then dedupFirstAux seen xs
    else x :: dedupFirstAux (seen ++ [x]) xs

/-- The unique words of a `searchText`: `new Set(searchText.split(/\s+/))`
in insertion order. -/
def uniqueWords (s : String) : List String :=
  dedupFirstAux [] (jsSplitWS s)

/-- The inverted index `state.searchIndex`: a JS `Map` from word to a `Set`
of catalog positions, both in insertion order. -/
abbrev SearchIndex := List (String × List Nat)

/-- `searchIndex.get(w)`, with a missing key read as the empty set
(`searchIndex.get(word) || new Set()`). -/
def idxLookup : SearchIndex → String → List Nat
  | [], _ => []
  | (w', ps) :: rest, w => if w' = w then ps else idxLookup rest w

/-- `if (!searchIndex.has(w)) searchIndex.set(w, new Set()); searchIndex.get(w).add(i)`:
a new key is appended at the end of the map; `Set.add` appends a new
element at the end. -/
def idxAdd : SearchIndex → String → Nat → SearchIndex
  | [], w, i => [(w, [i])]
  | (w', ps) :: rest, w, i =>
    if w' = w then (w', if ps.contains i then ps else ps ++ [i]) :: rest
    else (w', ps) :: idxAdd rest w i

/-- Indexing one item at position `i`: every unique word of its
`searchText` of length ≥ 2 gets `i` added to its position set. -/
def indexItemWords (i : Nat) (it : Item) (ix : SearchIndex) : SearchIndex :=
  (uniqueWords it.searchText).foldl
    (fun ix w => if 2 ≤ w.length then idxAdd ix w i else ix) ix

/-- `buildSearchStructures`: the inverted index built over the normalized
catalog. -/
def buildSearchIndex (items : List Item) : SearchIndex :=
  items.enum.foldl (fun ix p => indexItemWords p.1 p.2 ix) []

/-- The query's word list: `normalizeSearchText(term).split(/\s+/)`
filtered to words of length ≥ 2. -/
def searchWords (term : String) : List String :=
  (jsSplitWS (normalizeSearchText term)).filter (fun w => 2 ≤ w.length)

/-- AND-intersection of the position sets of the remaining query words
(`[...productIndices].filter(idx => indices.has(idx))`, iterated). -/
def intersectIndices (ix : SearchIndex) (first : List Nat)
    (rest : List String) : List Nat :=
  rest.foldl (fun acc w => acc.filter (fun i => (idxLookup ix w).contains i)) first

/-- `findRelevantProducts`: empty term or empty word list short-circuits to
no candidates; otherwise the words' position sets are intersected and the
surviving positions paired with their items. -/
def findRelevantProducts (items : List Item) (ix : SearchIndex)
    (term : String) : List (Nat × Item) :=
  if term = "" then []
  else
    match searchWords term with
    | [] => []
    | w :: ws =>
      (intersectIndices ix (idxLookup ix w) ws).filterMap
        (fun i => (items[i]?).map (fun it => (i, it)))

/-- The hand-tuned scoring weights (`CONFIG.SCORE_WEIGHTS`). -/
structure ScoreWeights where
  CODIGO_EXACTO : Int
  CODIGO_STARTS_WITH : Int
  CODIGO_CONTAINS : Int
  DESCRIPCION_EXACTA : Int
  DESCRIPCION_PALABRA : Int
  DESCRIPCION_CONTAINS : Int
  MARCA_EXACTA : Int
  MARCA_CONTAINS : Int
  RUBRO_EXACTO : Int
  MULTIPLE_MATCHES : Int

/-- The source's weight values. -/
def SCORE_WEIGHTS : ScoreWeights :=
  ⟨100, 50, 30, 40, 35, 20, 25, 15, 10, 5⟩

/-- `a.startsWith(b)` on character lists. -/
def listHasPrefix : List Char → List Char → Bool
  | _, [] => true
  | [], _ :: _ => false
  | c :: cs, d :: ds => c == d && listHasPrefix cs ds

/-- `a.includes(b)` (substring containment) on character lists. -/
def listHasSub : List Char → List Char → Bool
  | [], sub => sub.isEmpty
  | c :: cs, sub => listHasPrefix (c :: cs) sub || listHasSub cs sub

/-- JS `a.startsWith(b)`. -/
def strStartsWith (a b : String) : Bool := listHasPrefix a.toList b.toList

/-- JS `a.includes(b)`. -/
def strIncludes (a b : String) : Bool := listHasSub a.toList b.toList

/-- The number of matches of `new RegExp("\\b" + word + "\\b", "g")` against
`searchText`.  A query word and a `searchText` consist only of `[a-z0-9]`
and spaces, so the word-boundary-delimited matches are exactly the
whitespace-split tokens equal to `word`. -/
def wordMatchCount (s w : String) : Nat :=
  ((jsSplitWS s).filter (fun t => t == w)).length

/-- The score contribution of one query word for one candidate
(the body of the `searchWords.forEach` in `calculateProductScores`). -/
def wordScoreFor (it : Item) (w : String) : Int :=
  (if it.codigoNormalized = w then SCORE_WEIGHTS.CODIGO_EXACTO
   else if strStartsWith it.codigoNormalized w then SCORE_WEIGHTS.CODIGO_STARTS_WITH
   else if strIncludes it.codigoNormalized w then SCORE_WEIGHTS.CODIGO_CONTAINS
   else 0)
  + (if (jsSplitWS it.descripcionNormalized).contains w then SCORE_WEIGHTS.DESCRIPCION_PALABRA
     else if strIncludes it.descripcionNormalized w then SCORE_WEIGHTS.DESCRIPCION_CONTAINS
     else 0)
  + (if it.marcaNormalized = w then SCORE_WEIGHTS.MARCA_EXACTA
     else if strIncludes it.marcaNormalized w then SCORE_WEIGHTS.MARCA_CONTAINS
     else 0)
  + (if it.rubroNormalized = w then SCORE_WEIGHTS.RUBRO_EXACTO else 0)
  + (wordMatchCount it.searchText w : Int) * SCORE_WEIGHTS.MULTIPLE_MATCHES

/-- The summed raw (pre-normalization) score of a candidate. -/
def rawScore (it : Item) (ws : List String) : Int :=
  (ws.map (wordScoreFor it)).sum

/-- A candidate's final score: the summed word scores, forced to 0 when a
category filter is set and the item's category differs (hard veto), then
divided by 100 (`score / 100`, written `Rat.divInt` so it evaluates). -/
def itemScore (currentRubro : String) (ws : List String) (it : Item) : ℚ :=
  Rat.divInt
    (if currentRubro ≠ "" ∧ it.rubro ≠ currentRubro then 0 else rawScore it ws)
    100

/-- A scored search result (`{...item, score}` of `calculateProductScores`). -/
structure ScoredResult where
  idx : Nat
  item : Item
  score : ℚ
deriving DecidableEq, Inhabited

/-- `calculateProductScores` over the candidate list. -/
def calculateProductScores (term currentRubro : String)
    (cands : List (Nat × Item)) : List ScoredResult :=
  if term = "" ∨ cands.isEmpty then []
  else
    let ws := searchWords term
    cands.map (fun p => ⟨p.1, p.2, itemScore currentRubro ws p.2⟩)

/-- The engine configuration (`this.CONFIG`). -/
structure Config where
  MAX_RESULTS : Nat
  DEBOUNCE_MS : Nat
  MIN_SCORE : ℚ
  BATCH_SIZE : Nat
  CACHE_SIZE : Nat

/-- The source's configuration values; `MIN_SCORE` 0.15 is written
`Rat.divInt 3 20` so it evaluates by kernel reduction. -/
def CONFIG : Config := ⟨25, 350, Rat.divInt 3 20, 15, 50⟩

/-- The descending-score comparator `(a, b) => b.score - a.score` as the
total preorder it induces. -/
def scoreDescRel (a b : ScoredResult) : Prop := b.score ≤ a.score

instance : DecidableRel scoreDescRel := fun a b => inferInstanceAs (Decidable (b.score ≤ a.score))

/-- The compute path of `performSearch` (steps 3–5 of the query engine):
candidate resolution, scoring, thresholding (`score >= MIN_SCORE`), stable
descending sort by score, truncation to `MAX_RESULTS`. -/
def computeResults (cfg : Config) (items : List Item) (ix : SearchIndex)
    (term currentRubro : String) : List ScoredResult :=
  (List.insertionSort scoreDescRel
    ((calculateProductScores term currentRubro
        (findRelevantProducts items ix term)).filter
      (fun r => decide (cfg.MIN_SCORE ≤ r.score)))).take cfg.MAX_RESULTS

/-- `Rat.divInt n 100` is `score / 100` literally: the bridge to the
source's notation. -/
theorem divInt_eq_div_cast (n : Int) (d : Int) :
    Rat.divInt n d = (n : ℚ) / (d : ℚ) := Rat.divInt_eq_div n d

/-- The mutable engine state.  JS array objects live in `heap` (a list of
arrays addressed by allocation index); `resultsRef` is the reference held
by `state.results`, and each cache entry holds a reference to the array
stored for its key.  This makes the aliasing of `state.results =
searchCache.get(key)` explicit. -/
structure EngineState where
  heap : List (List ScoredResult)
  resultsRef : Nat
  cache : List (String × Nat)
  searchTerm : String
  currentRubro : String
  offset : Nat
  hasMore : Bool
deriving DecidableEq

/-- The freshly constructed state: `state.results = []` (one allocated
empty array), empty cache, empty term and filter. -/
def initState : EngineState := ⟨[[]], 0, [], "", "", 0, false⟩

/-- The array currently referenced by `state.results`. -/
def EngineState.currentResults (st : EngineState) : List ScoredResult :=
  st.heap.getD st.resultsRef []

/-- `searchCache.get(k)` / `searchCache.has(k)` on the insertion-ordered
association list. -/
def mapLookup : List (String × Nat) → String → Option Nat
  | [], _ => none
  | (k', v') :: rest, k => if k' = k then some v' else mapLookup rest k

/-- `searchCache.set(k, v)`: an existing key keeps its position, a new key
is appended at the end (JS `Map` insertion order). -/
def mapSet : List (String × Nat) → String → Nat → List (String × Nat)
  | [], k, v => [(k, v)]
  | (k', v') :: rest, k, v =>
    if k' = k then (k, v) :: rest else (k', v') :: mapSet rest k v

/-- `getCacheKey()`: the raw term and filter joined by a dash. -/
def EngineState.cacheKey (st : EngineState) : String :=
  st.searchTerm ++ "-" ++ st.currentRubro

/-- `cacheSearchResults(key)`: when the cache has reached `CACHE_SIZE`
entries the oldest-inserted key is deleted, then a fresh copy
(`[...state.results]`, a new array) of the current results is stored
under `key`. -/
def cacheSearchResults (cfg : Config) (key : String) (st : EngineState) :
    EngineState :=
  let cache := if cfg.CACHE_SIZE ≤ st.cache.length then st.cache.drop 1 else st.cache
  { st with
    heap := st.heap ++ [st.currentResults]
    cache := mapSet cache key st.heap.length }

/-- The reset performed at the top of `renderResults`: `offset = 0`,
`hasMore = results.length > BATCH_SIZE`. -/
def resetWindow (cfg : Config) (st : EngineState) : EngineState :=
  { st with offset := 0, hasMore := cfg.BATCH_SIZE < st.currentResults.length }

/-- `renderProductBatch()`: an empty result list is a no-op; otherwise the
slice `[offset, min(offset + BATCH_SIZE, results.length))` is delivered,
`offset` advances to the slice's end and `hasMore` records whether any
results remain. -/
def renderProductBatch (cfg : Config) (st : EngineState) :
    List ScoredResult × EngineState :=
  let res := st.currentResults
  if res.isEmpty then ([], st)
  else
    let start := st.offset
    let e := min (start + cfg.BATCH_SIZE) res.length
    ((res.drop start).take (e - start),
     { st with offset := e, hasMore := decide (e < res.length) })

/-- `renderResults()`: reset the window, then (unless the result list is
empty) deliver the first batch. -/
def renderResults (cfg : Config) (st : EngineState) : EngineState :=
  let st1 := resetWindow cfg st
  if st1.currentResults.isEmpty then st1 else (renderProductBatch cfg st1).2

/-- `this.state.results = rs` for a freshly computed array: allocate it and
point `resultsRef` at it. -/
def setResultsList (st : EngineState) (rs : List ScoredResult) : EngineState :=
  { st with heap := st.heap ++ [rs], resultsRef := st.heap.length }

/-- `performSearch()`: a cache hit installs the stored array itself (no
copy) as `state.results` and re-renders; a miss computes, installs and
caches the results, then renders. -/
def performSearch (cfg : Config) (items : List Item) (ix : SearchIndex)
    (st : EngineState) : EngineState :=
  let key := st.cacheKey
  match mapLookup st.cache key with
  | some r => renderResults cfg { st with resultsRef := r }
  | none =>
    let st1 := setResultsList st
      (computeResults cfg items ix st.searchTerm st.currentRubro)
    renderResults cfg (cacheSearchResults cfg key st1)

/-- The ascending-price comparator `(a, b) => a.product.precio_venta -
b.product.precio_venta` as the total preorder it induces. -/
def priceAscRel (a b : ScoredResult) : Prop :=
  a.item.precio_venta ≤ b.item.precio_venta

instance : DecidableRel priceAscRel :=
  fun a b => inferInstanceAs (Decidable (a.item.precio_venta ≤ b.item.precio_venta))

/-- The descending-price comparator. -/
def priceDescRel (a b : ScoredResult) : Prop :=
  b.item.precio_venta ≤ a.item.precio_venta

instance : DecidableRel priceDescRel :=
  fun a b => inferInstanceAs (Decidable (b.item.precio_venta ≤ a.item.precio_venta))

/-- `sortResults(sortType)`: an in-place (`Array.prototype.sort`) stable
re-sort of the array referenced by `state.results` — the heap cell is
updated, so every alias to the array observes the new order; an empty
result list is a no-op. -/
def sortResults (st : EngineState) (sortType : String) : EngineState :=
  let res := st.currentResults
  if res.isEmpty then st
  else
    let sorted :=
      if sortType = "price_asc" then List.insertionSort priceAscRel res
      else if sortType = "price_desc" then List.insertionSort priceDescRel res
      else List.insertionSort scoreDescRel res
    { st with heap := st.heap.set st.resultsRef sorted }

/-- One user-visible search: the input/filter handlers store the query and
category into the state, then call `performSearch`. -/
def searchWith (cfg : Config) (items : List Item) (ix : SearchIndex)
    (st : EngineState) (q c : String) : EngineState :=
  performSearch cfg items ix { st with searchTerm := q, currentRubro := c }

/-- A sequence of search invocations. -/
def runSearches (cfg : Config) (items : List Item) (ix : SearchIndex)
    (qs : List (String × String)) (st : EngineState) : EngineState :=
  qs.foldl (fun s qc => searchWith cfg items ix s qc.1 qc.2) st

/-- The cache key a query pair will be stored under. -/
def keyOf (qc : String × String) : String := qc.1 ++ "-" ++ qc.2

/-! Helper lemmas about the state machine. -/

theorem renderProductBatch_snd_cache (cfg : Config) (st : EngineState) :
    ((renderProductBatch cfg st).2).cache = st.cache := by
  unfold renderProductBatch; dsimp only; split <;> rfl

theorem renderProductBatch_snd_heap (cfg : Config) (st : EngineState) :
    ((renderProductBatch cfg st).2).heap = st.heap := by
  unfold renderProductBatch; dsimp only; split <;> rfl

theorem renderProductBatch_snd_resultsRef (cfg : Config) (st : EngineState) :
    ((renderProductBatch cfg st).2).resultsRef = st.resultsRef := by
  unfold renderProductBatch; dsimp only; split <;> rfl

theorem renderProductBatch_snd_searchTerm (cfg : Config) (st : EngineState) :
    ((renderProductBatch cfg st).2).searchTerm = st.searchTerm := by
  unfold renderProductBatch; dsimp only; split <;> rfl

theorem renderProductBatch_snd_currentRubro (cfg : Config) (st : EngineState) :
    ((renderProductBatch cfg st).2).currentRubro = st.currentRubro := by
  unfold renderProductBatch; dsimp only; split <;> rfl

theorem renderResults_cache (cfg : Config) (st : EngineState) :
    (renderResults cfg st).cache = st.cache := by
  unfold renderResults; dsimp only; split
  · rfl
  · rw [renderProductBatch_snd_cache]; rfl

theorem renderResults_heap (cfg : Config) (st : EngineState) :
    (renderResults cfg st).heap = st.heap := by
  unfold renderResults; dsimp only; split
  · rfl
  · rw [renderProductBatch_snd_heap]; rfl

theorem renderResults_resultsRef (cfg : Config) (st : EngineState) :
    (renderResults cfg st).resultsRef = st.resultsRef := by
  unfold renderResults; dsimp only; split
  · rfl
  · rw [renderProductBatch_snd_resultsRef]; rfl

theorem renderResults_searchTerm (cfg : Config) (st : EngineState) :
    (renderResults cfg st).searchTerm = st.searchTerm := by
  unfold renderResults; dsimp only; split
  · rfl
  · rw [renderProductBatch_snd_searchTerm]; rfl

theorem renderResults_currentRubro (cfg : Config) (st : EngineState) :
    (renderResults cfg st).currentRubro = st.currentRubro := by
  unfold renderResults; dsimp only; split
  · rfl
  · rw [renderProductBatch_snd_currentRubro]; rfl

theorem renderResults_currentResults (cfg : Config) (st : EngineState) :
    (renderResults cfg st).currentResults = st.currentResults := by
  unfold EngineState.currentResults
  rw [renderResults_heap, renderResults_resultsRef]

theorem mapLookup_mapSet_self (m : List (String × Nat)) (k : String) (v : Nat) :
    mapLookup (mapSet m k v) k = some v := by
  induction m with
  | nil => simp [mapSet, mapLookup]
  | cons hd tl ih =>
    obtain ⟨k', v'⟩ := hd
    by_cases h : k' = k
    · simp [mapSet, h, mapLookup]
    · simp [mapSet, h, mapLookup, ih]

theorem mapLookup_eq_none_iff (m : List (String × Nat)) (k : String) :
    mapLookup m k = none ↔ k ∉ m.map Prod.fst := by
  induction m with
  | nil => simp [mapLookup]
  | cons hd tl ih =>
    obtain ⟨k', v'⟩ := hd
    by_cases h : k' = k
    · simp [mapLookup, h]
    · simp [mapLookup, h, ih, Ne.symm h]

theorem mapSet_map_fst_of_not_mem (m : List (String × Nat)) (k : String)
    (v : Nat) (h : k ∉ m.map Prod.fst) :
    (mapSet m k v).map Prod.fst = m.map Prod.fst ++ [k] := by
  induction m with
  | nil => simp [mapSet]
  | cons hd tl ih =>
    obtain ⟨k', v'⟩ := hd
    simp only [List.map_cons, List.mem_cons] at h
    push_neg at h
    simp [mapSet, Ne.symm h.1, ih h.2]

theorem length_mapSet_le (m : List (String × Nat)) (k : String) (v : Nat) :
    (mapSet m k v).length ≤ m.length + 1 := by
  induction m with
  | nil => simp [mapSet]
  | cons hd tl ih =>
    obtain ⟨k', v'⟩ := hd
    by_cases h : k' = k
    · simp [mapSet, h]
    · simp only [mapSet, if_neg h, List.length_cons]
      omega

theorem getD_append_cons {α : Type} (l : List (List α)) (a : List α)
    (r : List (List α)) : (l ++ a :: r).getD l.length [] = a := by
  rw [List.getD_eq_getElem?_getD, List.getElem?_append_right (le_refl l.length)]
  simp

theorem setResultsList_currentResults (st : EngineState)
    (rs : List ScoredResult) : (setResultsList st rs).currentResults = rs := by
  unfold setResultsList EngineState.currentResults
  dsimp only
  have : st.heap ++ [rs] = st.heap ++ rs :: [] := rfl
  rw [this, getD_append_cons]

theorem cacheSearchResults_heap (cfg : Config) (key : String)
    (st : EngineState) :
    (cacheSearchResults cfg key st).heap = st.heap ++ [st.currentResults] := rfl

theorem cacheSearchResults_resultsRef (cfg : Config) (key : String)
    (st : EngineState) :
    (cacheSearchResults cfg key st).resultsRef = st.resultsRef := rfl

theorem cacheSearchResults_searchTerm (cfg : Config) (key : String)
    (st : EngineState) :
    (cacheSearchResults cfg key st).searchTerm = st.searchTerm := rfl

theorem cacheSearchResults_currentRubro (cfg : Config) (key : String)
    (st : EngineState) :
    (cacheSearchResults cfg key st).currentRubro = st.currentRubro := rfl

theorem performSearch_searchTerm (cfg : Config) (items : List Item)
    (ix : SearchIndex) (st : EngineState) :
    (performSearch cfg items ix st).searchTerm = st.searchTerm := by
  unfold performSearch
  cases hm : mapLookup st.cache st.cacheKey with
  | none =>
    simp only [hm]
    rw [renderResults_searchTerm, cacheSearchResults_searchTerm]
    rfl
  | some r => simp only [hm]; rw [renderResults_searchTerm]

theorem performSearch_currentRubro (cfg : Config) (items : List Item)
    (ix : SearchIndex) (st : EngineState) :
    (performSearch cfg items ix st).currentRubro = st.currentRubro := by
  unfold performSearch
  cases hm : mapLookup st.cache st.cacheKey with
  | none =>
    simp only [hm]
    rw [renderResults_currentRubro, cacheSearchResults_currentRubro]
    rfl
  | some r => simp only [hm]; rw [renderResults_currentRubro]

/-! C9: result-window paging. -/

/-- A ranked placeholder result used by the paging scenario. -/
def pageSR (n : Nat) : ScoredResult :=
  ⟨n, default, Rat.divInt (10 - (n : Int)) 10⟩

/-- Five ranked results. -/
def fiveResults : List ScoredResult :=
  [pageSR 0, pageSR 1, pageSR 2, pageSR 3, pageSR 4]

/-- The configuration with page size 2 used by the spec's paging scenario. -/
def cfgPage2 : Config := { CONFIG with BATCH_SIZE := 2 }

/-- A freshly reset window over the five ranked results. -/
def pagingState0 : EngineState :=
  resetWindow cfgPage2 { initState with heap := [fiveResults], resultsRef := 0 }

/-- First page delivery. -/
def pagingStep1 : List ScoredResult × EngineState :=
  renderProductBatch cfgPage2 pagingState0

/-- Second page delivery. -/
def pagingStep2 : List ScoredResult × EngineState :=
  renderProductBatch cfgPage2 pagingStep1.2

/-- Third page delivery. -/
def pagingStep3 : List ScoredResult × EngineState :=
  renderProductBatch cfgPage2 pagingStep2.2

/-- Fourth page delivery (after the window is exhausted). -/
def pagingStep4 : List ScoredResult × EngineState :=
  renderProductBatch cfgPage2 pagingStep3.2

/-- C9: for every state whose offset is within the result list, a page
delivery returns exactly the slice `[offset, min(offset + BATCH_SIZE,
results.length))`, advances `offset` to the slice's end, and keeps
`offset ≤ results.length`; and in the spec's scenario (page size 2 over 5
ranked results) three successive deliveries have lengths 2, 2, 1, after
which `hasMore` is false and a fourth delivery is a no-op returning an
empty page. -/
theorem paging_window_protocol :
    (∀ (cfg : Config) (st : EngineState),
      st.offset ≤ st.currentResults.length →
      (renderProductBatch cfg st).1 =
        (st.currentResults.drop st.offset).take
          (min (st.offset + cfg.BATCH_SIZE) st.currentResults.length - st.offset) ∧
      ((renderProductBatch cfg st).2).offset =
        min (st.offset + cfg.BATCH_SIZE) st.currentResults.length ∧
      ((renderProductBatch cfg st).2).offset ≤ st.currentResults.length) ∧
    (pagingStep1.1.length = 2 ∧ pagingStep2.1.length = 2 ∧
     pagingStep3.1.length = 1 ∧ pagingStep3.2.hasMore = false ∧
     pagingStep4.1 = [] ∧ pagingStep4.2 = pagingStep3.2) := by
  constructor
  · intro cfg st h
    unfold renderProductBatch
    dsimp only
    split
    · next hres =>
        have hnil : st.currentResults = [] := List.isEmpty_iff.mp hres
        have hoff : st.offset = 0 := by
          rw [hnil] at h
          simpa using h
        refine ⟨?_, ?_, ?_⟩ <;> simp [hnil, hoff]
    · next hres =>
        refine ⟨rfl, rfl, ?_⟩
        dsimp only
        omega
  · exact ⟨by decide, by decide, by decide, by decide, by decide, by decide⟩

/-- C9 witness: the general clause applied to the concrete scenario state
(offset 0 over five results); the delivered offset stays within bounds. -/
theorem paging_window_protocol_witness :
    pagingState0.offset ≤ pagingState0.currentResults.length ∧
    (renderProductBatch cfgPage2 pagingState0).2.offset ≤
      pagingState0.currentResults.length := by
  refine ⟨by decide, ?_⟩
  exact (paging_window_protocol.1 cfgPage2 pagingState0 (by decide)).2.2

/-! Concrete catalog used by several witnesses (the spec's own scenario
catalog). -/

/-- Raw record of the spec's scenario hammer item. -/
def rawMartillo : RawProduct :=
  ⟨some "100", some "MARTILLO DE OREJAS", some "HERRAMIENTAS", some "ACME", .jnum 1000⟩

/-- Raw record of the spec's scenario screw item. -/
def rawTornillo : RawProduct :=
  ⟨some "200", some "TORNILLO 3X25", some "TORNILLOS", some "ACME", .jnum 50⟩

/-- The scenario catalog, normalized. -/
def demoItems : List Item := processProducts [rawMartillo, rawTornillo]

/-- The scenario catalog's inverted index. -/
def demoIndex : SearchIndex := buildSearchIndex demoItems

/-- The ranked results of the query `"martillo"` over the scenario catalog. -/
def demoResults : List ScoredResult :=
  computeResults CONFIG demoItems demoIndex "martillo" ""

/-- The top result of `demoResults`. -/
def demoTop : ScoredResult := demoResults.headD default

/-! C3: which records survive normalization, and the price coercion. -/

/-- A record whose `precio_venta` is present but `0` (falsy). -/
def rawPriceZero : RawProduct :=
  ⟨some "300", some "ARANDELA", some "BULONERIA", some "ACME", .jnum 0⟩

/-- A record whose `precio_venta` is present and negative. -/
def rawPriceNegative : RawProduct :=
  ⟨some "400", some "TALADRO", some "HERRAMIENTAS", some "ACME", .jnum (-5)⟩

/-- C3 counterexample: a record with `code`, `description` and `price` all
present is nevertheless dropped when the price is the (falsy) number 0, so
"kept exactly when all three are present" fails; and a kept record's price
can be negative, so "price ≥ 0" fails. -/
theorem normalization_presence_claim_cex :
    processProducts [rawPriceZero] = [] ∧
    (processProducts [rawPriceNegative]).map (fun it => it.precio_venta) = [-5] ∧
    ¬ (0 ≤ (-5 : ℚ)) :=
  ⟨by decide, by decide, by decide⟩

/-- C3 (amended): a raw record is kept exactly when `codigo`, `descripcion`
and `precio_venta` are all truthy (so a present-but-falsy field — empty
string, the number 0 — also drops the record); a kept record's price is the
JS numeric coercion of the raw price with NaN collapsed to 0 (in particular
a non-numeric raw price yields 0, never an error), and it may be
negative. -/
theorem normalization_presence_amended (p : RawProduct) :
    ((normalizeRecord p).isSome ↔
      (optTruthy p.codigo ∧ optTruthy p.descripcion ∧ p.precio_venta.truthy)) ∧
    ∀ it, normalizeRecord p = some it →
      it.precio_venta = (p.precio_venta.toNumber).getD 0 ∧
      (p.precio_venta.toNumber = none → it.precio_venta = 0) := by
  unfold normalizeRecord
  split
  · next hcond =>
    rw [Bool.and_eq_true, Bool.and_eq_true] at hcond
    refine ⟨by simp [hcond.1.1, hcond.1.2, hcond.2], ?_⟩
    intro it hit
    injection hit with h
    subst h
    refine ⟨rfl, ?_⟩
    intro hnone
    simp [hnone]
  · next hcond =>
    refine ⟨?_, ?_⟩
    · simp only [Option.isSome_none, Bool.false_eq_true, false_iff]
      intro hcontra
      exact hcond (by simp [hcontra.1, hcontra.2.1, hcontra.2.2])
    · intro it hit
      exact absurd hit (by simp)

/-- C3 witness: the amended statement applied to the concrete negative-price
record. -/
theorem normalization_presence_amended_witness :
    (normalizeRecord rawPriceNegative).isSome ∧
    ((normalizeRecord rawPriceNegative).getD default).precio_venta =
      ((rawPriceNegative.precio_venta).toNumber).getD 0 := by
  refine ⟨?_, ?_⟩
  · exact (normalization_presence_amended rawPriceNegative).1.mpr
      ⟨by decide, by decide, by decide⟩
  · exact ((normalization_presence_amended rawPriceNegative).2 _ (by decide)).1

/-! C2: the range of normalized scores. -/

/-- A record matching a query word in every field at once. -/
def rawAllAB : RawProduct :=
  ⟨some "AB", some "AB", some "AB", some "AB", .jnum 100⟩

/-- The one-record catalog built from it. -/
def itemsAB : List Item := processProducts [rawAllAB]

/-- C2 counterexample: for the catalog `[rawAllAB]` and the query `"AB"`
the single returned result scores 100 (exact code) + 35 (description word)
+ 25 (exact brand) + 10 (exact category) + 4·5 (four whole-word
occurrences) = 190, normalized to 1.9 — outside `[0, 1]`. -/
theorem score_unit_interval_cex :
    (computeResults CONFIG itemsAB (buildSearchIndex itemsAB) "AB" "").map
      (fun r => r.score) = [Rat.divInt 190 100] ∧
    ¬ (Rat.divInt 190 100 ≤ 1) :=
  ⟨by decide, by decide⟩

/-- Each single-word score contribution is nonnegative. -/
theorem wordScoreFor_nonneg (it : Item) (w : String) : 0 ≤ wordScoreFor it w := by
  unfold wordScoreFor
  have h5 : 0 ≤ (wordMatchCount it.searchText w : Int) * SCORE_WEIGHTS.MULTIPLE_MATCHES :=
    mul_nonneg (Int.natCast_nonneg _) (by decide)
  have h1 : (0:Int) ≤ (if it.codigoNormalized = w then SCORE_WEIGHTS.CODIGO_EXACTO
      else if strStartsWith it.codigoNormalized w then SCORE_WEIGHTS.CODIGO_STARTS_WITH
      else if strIncludes it.codigoNormalized w then SCORE_WEIGHTS.CODIGO_CONTAINS
      else 0) := by split_ifs <;> decide
  have h2 : (0:Int) ≤ (if (jsSplitWS it.descripcionNormalized).contains w then SCORE_WEIGHTS.DESCRIPCION_PALABRA
      else if strIncludes it.descripcionNormalized w then SCORE_WEIGHTS.DESCRIPCION_CONTAINS
      else 0) := by split_ifs <;> decide
  have h3 : (0:Int) ≤ (if it.marcaNormalized = w then SCORE_WEIGHTS.MARCA_EXACTA
      else if strIncludes it.marcaNormalized w then SCORE_WEIGHTS.MARCA_CONTAINS
      else 0) := by split_ifs <;> decide
  have h4 : (0:Int) ≤ (if it.rubroNormalized = w then SCORE_WEIGHTS.RUBRO_EXACTO else 0) := by
    split_ifs <;> decide
  exact add_nonneg (add_nonneg (add_nonneg (add_nonneg h1 h2) h3) h4) h5

/-- The summed raw score is nonnegative. -/
theorem rawScore_nonneg (it : Item) (ws : List String) : 0 ≤ rawScore it ws := by
  apply List.sum_nonneg
  intro x hx
  rw [List.mem_map] at hx
  obtain ⟨w, _, rfl⟩ := hx
  exact wordScoreFor_nonneg it w

/-- A candidate's final score is nonnegative. -/
theorem itemScore_nonneg (c : String) (ws : List String) (it : Item) :
    0 ≤ itemScore c ws it := by
  unfold itemScore
  apply Rat.divInt_nonneg ?_ (by norm_num)
  split
  · exact le_refl 0
  · exact rawScore_nonneg it ws

/-- C2 (amended): every result returned by the search pipeline has a
nonnegative score; the division by 100 gives no upper bound of 1
(see `score_unit_interval_cex`). -/
theorem score_nonneg (items : List Item) (ix : SearchIndex) (term c : String) :
    ∀ r ∈ computeResults CONFIG items ix term c, 0 ≤ r.score := by
  intro r hr
  have h1 := List.mem_of_mem_take hr
  have h2 := (List.perm_insertionSort _ _).mem_iff.mp h1
  have h3 := List.mem_of_mem_filter h2
  unfold calculateProductScores at h3
  split at h3
  · exact absurd h3 (List.not_mem_nil r)
  · rw [List.mem_map] at h3
    obtain ⟨p, _, rfl⟩ := h3
    exact itemScore_nonneg c (searchWords term) p.2

/-- C2 witness: the amended statement at the scenario catalog and query. -/
theorem score_nonneg_witness : demoTop ∈ demoResults ∧ 0 ≤ demoTop.score :=
  ⟨by decide, score_nonneg demoItems demoIndex "martillo" "" demoTop (by decide)⟩

/-! C4: the category filter is a hard veto. -/

/-- C4: with a non-empty category filter, every returned result's item has
exactly the filtered category; an item of any other category is scored 0
regardless of its textual match and cannot pass the 0.15 threshold. -/
theorem category_veto (items : List Item) (ix : SearchIndex) (term c : String)
    (hc : c ≠ "") :
    ∀ r ∈ computeResults CONFIG items ix term c, r.item.rubro = c := by
  intro r hr
  have h1 := List.mem_of_mem_take hr
  have h2 := (List.perm_insertionSort _ _).mem_iff.mp h1
  obtain ⟨hmem, hsc⟩ := List.mem_filter.mp h2
  rw [decide_eq_true_eq] at hsc
  unfold calculateProductScores at hmem
  split at hmem
  · exact absurd hmem (List.not_mem_nil r)
  · rw [List.mem_map] at hmem
    obtain ⟨p, _, rfl⟩ := hmem
    by_contra hne
    have hzero : itemScore c (searchWords term) p.2 = Rat.divInt 0 100 := by
      unfold itemScore
      rw [if_pos ⟨hc, hne⟩]
    rw [show (⟨p.1, p.2, itemScore c (searchWords term) p.2⟩ : ScoredResult).score =
      itemScore c (searchWords term) p.2 from rfl, hzero] at hsc
    exact absurd hsc (by decide)

/-- The results of the scenario query with the category filter set. -/
def demoResultsH : List ScoredResult :=
  computeResults CONFIG demoItems demoIndex "martillo" "HERRAMIENTAS"

/-- The top result of `demoResultsH`. -/
def demoTopH : ScoredResult := demoResultsH.headD default

/-- C4 witness: the veto applied at the scenario catalog with the
`HERRAMIENTAS` filter. -/
theorem category_veto_witness :
    ("HERRAMIENTAS" : String) ≠ "" ∧ demoTopH ∈ demoResultsH ∧
    demoTopH.item.rubro = "HERRAMIENTAS" :=
  ⟨by decide, by decide,
   category_veto demoItems demoIndex "martillo" "HERRAMIENTAS" (by decide)
     demoTopH (by decide)⟩

/-! C5: thresholding, ranking and truncation. -/

/-- C5: every returned result scores at least `MIN_SCORE` = 0.15 (= 3/20),
the list is in non-increasing score order, and it has at most
`MAX_RESULTS` = 25 entries. -/
theorem threshold_sort_cap (items : List Item) (ix : SearchIndex)
    (term c : String) :
    (∀ r ∈ computeResults CONFIG items ix term c, Rat.divInt 3 20 ≤ r.score) ∧
    List.Sorted scoreDescRel (computeResults CONFIG items ix term c) ∧
    (computeResults CONFIG items ix term c).length ≤ 25 := by
  refine ⟨?_, ?_, ?_⟩
  · intro r hr
    have h1 := List.mem_of_mem_take hr
    have h2 := (List.perm_insertionSort _ _).mem_iff.mp h1
    have hsc := (List.mem_filter.mp h2).2
    rw [decide_eq_true_eq] at hsc
    exact hsc
  · haveI htot : IsTotal ScoredResult scoreDescRel :=
      ⟨fun a b => le_total b.score a.score⟩
    haveI htr : IsTrans ScoredResult scoreDescRel :=
      ⟨fun a b c h1 h2 => le_trans h2 h1⟩
    exact List.Pairwise.sublist (List.take_sublist _ _)
      (List.sorted_insertionSort scoreDescRel _)
  · unfold computeResults
    rw [List.length_take]
    exact min_le_left _ _

/-- C5 witness: the threshold clause at the scenario catalog and query. -/
theorem threshold_sort_cap_witness :
    demoTop ∈ demoResults ∧ Rat.divInt 3 20 ≤ demoTop.score :=
  ⟨by decide,
   (threshold_sort_cap demoItems demoIndex "martillo" "").1 demoTop (by decide)⟩

/-! Index invariants (C7, C1). -/

/-- A position found in the index after an `idxAdd` was either already
there or is the position just added under the word just added. -/
theorem mem_idxLookup_idxAdd {j : Nat} (ix : SearchIndex) (w : String)
    (i : Nat) (w' : String) (h : j ∈ idxLookup (idxAdd ix w i) w') :
    j ∈ idxLookup ix w' ∨ (w' = w ∧ j = i) := by
  induction ix with
  | nil =>
    unfold idxAdd idxLookup at h
    split at h
    · next heq =>
      right
      refine ⟨heq.symm, ?_⟩
      simpa using h
    · next => simp [idxLookup] at h
  | cons hd tl ih =>
    obtain ⟨k, ps⟩ := hd
    unfold idxAdd at h
    split at h
    · next hk =>
      unfold idxLookup at h
      split at h
      · next hk2 =>
        split at h
        · left; unfold idxLookup; rw [if_pos hk2]; exact h
        · rcases List.mem_append.mp h with h1 | h1
          · left; unfold idxLookup; rw [if_pos hk2]; exact h1
          · right
            refine ⟨?_, by simpa using h1⟩
            rw [← hk2, hk]
      · next hk2 =>
        left; unfold idxLookup; rw [if_neg hk2]; exact h
    · next hk =>
      unfold idxLookup at h
      split at h
      · next hk2 => left; unfold idxLookup; rw [if_pos hk2]; exact h
      · next hk2 =>
        rcases ih h with h1 | h1
        · left; unfold idxLookup; rw [if_neg hk2]; exact h1
        · right; exact h1

/-- The key list after an `idxAdd`: unchanged when the word was present,
extended at the end otherwise. -/
theorem idxAdd_map_fst (ix : SearchIndex) (w : String) (i : Nat) :
    (idxAdd ix w i).map Prod.fst =
      if w ∈ ix.map Prod.fst then ix.map Prod.fst else ix.map Prod.fst ++ [w] := by
  induction ix with
  | nil => simp [idxAdd]
  | cons hd tl ih =>
    obtain ⟨k, ps⟩ := hd
    by_cases hk : k = w
    · subst hk
      simp [idxAdd]
    · simp only [idxAdd, if_neg hk, List.map_cons, ih]
      by_cases hmem : w ∈ tl.map Prod.fst
      · simp [hmem, Ne.symm hk]
      · simp [hmem, Ne.symm hk]

/-- With pairwise-distinct keys, a pair in the index is what lookup
returns for its key. -/
theorem lookup_of_mem_nodup (ix : SearchIndex) (w : String) (ps : List Nat)
    (hnd : (ix.map Prod.fst).Nodup) (hmem : (w, ps) ∈ ix) :
    idxLookup ix w = ps := by
  induction ix with
  | nil => exact absurd hmem (List.not_mem_nil _)
  | cons hd tl ih =>
    obtain ⟨k, qs⟩ := hd
    rw [List.map_cons, List.nodup_cons] at hnd
    rcases List.mem_cons.mp hmem with h1 | h1
    · have h1a : w = k := congrArg Prod.fst h1
      have h1b : ps = qs := congrArg Prod.snd h1
      subst h1a; subst h1b
      unfold idxLookup
      rw [if_pos rfl]
    · have hk : k ≠ w := by
        intro hkw
        refine hnd.1 ?_
        rw [hkw]
        exact List.mem_map.mpr ⟨(w, ps), h1, rfl⟩
      unfold idxLookup
      rw [if_neg hk]
      exact ih hnd.2 h1

/-- The invariant maintained while building the inverted index: keys are
distinct, every key has length ≥ 2, and every indexed position points at an
item whose `searchText` contains the key as a whitespace-delimited word. -/
def IndexInv (items : List Item) (ix : SearchIndex) : Prop :=
  (ix.map Prod.fst).Nodup ∧
  (∀ w ∈ ix.map Prod.fst, 2 ≤ w.length) ∧
  (∀ w j, j ∈ idxLookup ix w →
    ∃ it, items[j]? = some it ∧ w ∈ jsSplitWS it.searchText)

/-- `idxAdd` preserves the index invariant. -/
theorem indexInv_idxAdd (items : List Item) (ix : SearchIndex) (w : String)
    (i : Nat) (it : Item) (hinv : IndexInv items ix) (hlen : 2 ≤ w.length)
    (hit : items[i]? = some it) (hw : w ∈ jsSplitWS it.searchText) :
    IndexInv items (idxAdd ix w i) := by
  obtain ⟨hnd, hlen2, hpos⟩ := hinv
  refine ⟨?_, ?_, ?_⟩
  · rw [idxAdd_map_fst]
    split
    · exact hnd
    · next hmem =>
      rw [List.nodup_append]
      exact ⟨hnd, List.nodup_singleton w, by simpa using hmem⟩
  · intro w' hw'
    rw [idxAdd_map_fst] at hw'
    split at hw'
    · exact hlen2 w' hw'
    · rcases List.mem_append.mp hw' with h | h
      · exact hlen2 w' h
      · rw [List.mem_singleton] at h
        subst h
        exact hlen
  · intro w' j hj
    rcases mem_idxLookup_idxAdd ix w i w' hj with h | ⟨rfl, rfl⟩
    · exact hpos w' j h
    · exact ⟨it, hit, hw⟩

/-- Every word kept by the first-occurrence dedup already occurs in the
input list. -/
theorem mem_dedupFirstAux (seen l : List String) :
    ∀ w ∈ dedupFirstAux seen l, w ∈ l := by
  induction l generalizing seen with
  | nil => simp [dedupFirstAux]
  | cons hd tl ih =>
    intro w hw
    unfold dedupFirstAux at hw
    split at hw
    · exact List.mem_cons_of_mem hd (ih _ w hw)
    · rcases List.mem_cons.mp hw with h | h
      · exact h ▸ List.mem_cons_self hd tl
      · exact List.mem_cons_of_mem hd (ih _ w h)

/-- Indexing one item preserves the invariant. -/
theorem indexInv_indexItemWords (items : List Item) (i : Nat) (it : Item)
    (ix : SearchIndex) (hinv : IndexInv items ix)
    (hit : items[i]? = some it) :
    IndexInv items (indexItemWords i it ix) := by
  unfold indexItemWords
  have hsub : ∀ w ∈ uniqueWords it.searchText, w ∈ jsSplitWS it.searchText :=
    mem_dedupFirstAux [] (jsSplitWS it.searchText)
  revert hinv hsub
  generalize uniqueWords it.searchText = ws
  induction ws generalizing ix with
  | nil => intro hinv _; exact hinv
  | cons hd tl ih =>
    intro hinv hws
    rw [List.foldl_cons]
    apply ih
    · split
      · next hlen =>
        exact indexInv_idxAdd items ix hd i it hinv hlen hit
          (hws hd (List.mem_cons_self hd tl))
      · exact hinv
    · intro w hwmem
      exact hws w (List.mem_cons_of_mem hd hwmem)

/-- The invariant holds for the index built over any catalog. -/
theorem buildSearchIndex_inv (items : List Item) :
    IndexInv items (buildSearchIndex items) := by
  unfold buildSearchIndex
  have hbase : IndexInv items [] := by
    refine ⟨List.nodup_nil, by simp, ?_⟩
    intro w j hj
    simp [idxLookup] at hj
  have henum : ∀ p ∈ items.enum, items[p.1]? = some p.2 := by
    intro p hp
    have : (p.1, p.2) ∈ items.enum := by
      rwa [show (p.1, p.2) = p from rfl]
    exact List.mk_mem_enum_iff_getElem?.mp this
  revert hbase henum
  generalize items.enum = ps
  generalize ([] : SearchIndex) = ix0
  induction ps generalizing ix0 with
  | nil => intro hinv _; exact hinv
  | cons hd tl ih =>
    intro hinv hps
    rw [List.foldl_cons]
    apply ih
    · exact indexInv_indexItemWords items hd.1 hd.2 ix0 hinv
        (hps hd (List.mem_cons_self hd tl))
    · intro p hp
      exact hps p (List.mem_cons_of_mem hd hp)

/-! C7: index tokens and positions. -/

/-- C7: every token of the built inverted index has length ≥ 2, and every
position in any token's position set is strictly below the catalog
length. -/
theorem index_tokens_and_positions (items : List Item) (w : String)
    (ps : List Nat) (h : (w, ps) ∈ buildSearchIndex items) :
    2 ≤ w.length ∧ ∀ i ∈ ps, i < items.length := by
  obtain ⟨hnd, hlen, hpos⟩ := buildSearchIndex_inv items
  refine ⟨hlen w (List.mem_map_of_mem Prod.fst h), ?_⟩
  intro i hi
  have hl : idxLookup (buildSearchIndex items) w = ps :=
    lookup_of_mem_nodup _ w ps hnd h
  obtain ⟨it, hit, _⟩ := hpos w i (hl ▸ hi)
  obtain ⟨hlt, _⟩ := List.getElem?_eq_some.mp hit
  exact hlt

/-- C7 witness: the scenario catalog's index maps `"martillo"` to the
position set `[0]`. -/
theorem index_tokens_and_positions_witness :
    (("martillo", [0]) ∈ buildSearchIndex demoItems) ∧
    2 ≤ ("martillo" : String).length ∧ (0 : Nat) < demoItems.length :=
  ⟨by decide,
   (index_tokens_and_positions demoItems "martillo" [0] (by decide)).1,
   (index_tokens_and_positions demoItems "martillo" [0] (by decide)).2 0
     (by decide)⟩

/-! C1: AND-intersection correctness. -/

/-- A position surviving the AND-intersection lies in the first word's set
and in every remaining word's set. -/
theorem mem_intersectIndices (ix : SearchIndex) (first : List Nat)
    (rest : List String) (i : Nat) (h : i ∈ intersectIndices ix first rest) :
    i ∈ first ∧ ∀ w ∈ rest, i ∈ idxLookup ix w := by
  induction rest generalizing first with
  | nil => exact ⟨h, by simp⟩
  | cons hd tl ih =>
    have h' := ih (first.filter (fun j => (idxLookup ix hd).contains j)) h
    obtain ⟨hf, htl⟩ := h'
    rw [List.mem_filter] at hf
    refine ⟨hf.1, ?_⟩
    intro w hw
    rcases List.mem_cons.mp hw with rfl | hmem
    · simpa using hf.2
    · exact htl w hmem

/-- C1: for a query whose filtered word list is non-empty, every result the
search pipeline returns (over the index built from the catalog) has an item
whose `searchText` contains each query word as a whitespace-delimited
word. -/
theorem results_contain_all_query_words (items : List Item) (term c : String)
    (hw : searchWords term ≠ []) :
    ∀ r ∈ computeResults CONFIG items (buildSearchIndex items) term c,
      ∀ w ∈ searchWords term, w ∈ jsSplitWS r.item.searchText := by
  intro r hr w hwmem
  have h1 := List.mem_of_mem_take hr
  have h2 := (List.perm_insertionSort _ _).mem_iff.mp h1
  have h3 := List.mem_of_mem_filter h2
  unfold calculateProductScores at h3
  split at h3
  · exact absurd h3 (List.not_mem_nil r)
  · rw [List.mem_map] at h3
    obtain ⟨p, hp, rfl⟩ := h3
    unfold findRelevantProducts at hp
    split at hp
    · exact absurd hp (List.not_mem_nil p)
    · split at hp
      · next hmatch => exact absurd hmatch hw
      · next w0 ws hmatch =>
        rw [List.mem_filterMap] at hp
        obtain ⟨i, hi, hpi⟩ := hp
        rcases hoption : items[i]? with _ | it
        · rw [hoption] at hpi
          exact absurd hpi (by simp)
        · rw [hoption] at hpi
          have hpeq : p = (i, it) := by simpa using hpi.symm
          subst hpeq
          obtain ⟨hfirst, hrest⟩ :=
            mem_intersectIndices (buildSearchIndex items)
              (idxLookup (buildSearchIndex items) w0) ws i hi
          have hlook : i ∈ idxLookup (buildSearchIndex items) w := by
            rw [hmatch] at hwmem
            rcases List.mem_cons.mp hwmem with rfl | hmem
            · exact hfirst
            · exact hrest w hmem
          obtain ⟨it2, hit2, hsplit⟩ :=
            (buildSearchIndex_inv items).2.2 w i hlook
          rw [hoption] at hit2
          have : it = it2 := Option.some.inj hit2
          subst this
          exact hsplit

/-- C1 witness: the scenario query `"martillo"` has a non-empty word list
and its one result's `searchText` contains the word. -/
theorem results_contain_all_query_words_witness :
    searchWords "martillo" ≠ [] ∧ demoTop ∈ demoResults ∧
    "martillo" ∈ jsSplitWS demoTop.item.searchText :=
  ⟨by decide, by decide,
   results_contain_all_query_words demoItems "martillo" "" (by decide)
     demoTop (by decide) "martillo" (by decide)⟩

/-! C8: repeating a search returns the identical result list. -/

/-- Equation for `performSearch` on a cache hit. -/
theorem performSearch_eq_of_hit (cfg : Config) (items : List Item)
    (ix : SearchIndex) (st : EngineState) (r : Nat)
    (hm : mapLookup st.cache st.cacheKey = some r) :
    performSearch cfg items ix st =
      renderResults cfg { st with resultsRef := r } := by
  unfold performSearch
  dsimp only
  rw [hm]

/-- Equation for `performSearch` on a cache miss. -/
theorem performSearch_eq_of_miss (cfg : Config) (items : List Item)
    (ix : SearchIndex) (st : EngineState)
    (hm : mapLookup st.cache st.cacheKey = none) :
    performSearch cfg items ix st =
      renderResults cfg (cacheSearchResults cfg st.cacheKey
        (setResultsList st
          (computeResults cfg items ix st.searchTerm st.currentRubro))) := by
  unfold performSearch
  dsimp only
  rw [hm]

/-- C8: with the catalog and index unchanged, searching twice in a row
(same stored term and filter) yields exactly the same ordered result list —
the second call is a cache hit on the entry the first call used or
created, whose stored copy has the same contents. -/
theorem search_idempotent (cfg : Config) (items : List Item)
    (ix : SearchIndex) (st : EngineState) :
    (performSearch cfg items ix (performSearch cfg items ix st)).currentResults =
      (performSearch cfg items ix st).currentResults := by
  cases hm : mapLookup st.cache st.cacheKey with
  | some r =>
    rw [performSearch_eq_of_hit cfg items ix st r hm]
    have hkey : (renderResults cfg { st with resultsRef := r }).cacheKey =
        st.cacheKey := by
      unfold EngineState.cacheKey
      rw [renderResults_searchTerm, renderResults_currentRubro]
    have hm2 : mapLookup (renderResults cfg { st with resultsRef := r }).cache
        ((renderResults cfg { st with resultsRef := r }).cacheKey) = some r := by
      rw [hkey, renderResults_cache]
      exact hm
    rw [performSearch_eq_of_hit cfg items ix _ r hm2]
    rw [renderResults_currentResults, renderResults_currentResults]
    unfold EngineState.currentResults
    dsimp only
    rw [renderResults_heap]
  | none =>
    rw [performSearch_eq_of_miss cfg items ix st hm]
    set R := computeResults cfg items ix st.searchTerm st.currentRubro with hR
    set st1 := setResultsList st R with hst1
    set st2 := cacheSearchResults cfg st.cacheKey st1 with hst2
    have hkey : (renderResults cfg st2).cacheKey = st.cacheKey := by
      unfold EngineState.cacheKey
      rw [renderResults_searchTerm, renderResults_currentRubro, hst2,
        cacheSearchResults_searchTerm, cacheSearchResults_currentRubro]
      rfl
    have hcache : (renderResults cfg st2).cache =
        mapSet (if cfg.CACHE_SIZE ≤ st.cache.length then st.cache.drop 1
          else st.cache) st.cacheKey st1.heap.length := by
      rw [renderResults_cache, hst2]
      rfl
    have hm2 : mapLookup (renderResults cfg st2).cache
        ((renderResults cfg st2).cacheKey) = some st1.heap.length := by
      rw [hkey, hcache]
      exact mapLookup_mapSet_self _ _ _
    rw [performSearch_eq_of_hit cfg items ix _ _ hm2]
    rw [renderResults_currentResults, renderResults_currentResults]
    unfold EngineState.currentResults
    dsimp only
    rw [renderResults_heap]
    have hheap2 : st2.heap = (st.heap ++ [R]) ++ [R] := by
      rw [hst2, cacheSearchResults_heap, setResultsList_currentResults]
      rfl
    have href2 : st2.resultsRef = st.heap.length := by
      rw [hst2]
      rfl
    have hlen1 : st1.heap.length = (st.heap ++ [R]).length := rfl
    rw [hheap2, href2, hlen1]
    have hL : ((st.heap ++ [R]) ++ [R]).getD (st.heap ++ [R]).length [] = R := by
      have := getD_append_cons (st.heap ++ [R]) R []
      simpa using this
    have hRside : ((st.heap ++ [R]) ++ [R]).getD st.heap.length [] = R := by
      rw [List.append_assoc]
      exact getD_append_cons st.heap R [R]
    rw [hL, hRside]

/-! C10: a cache hit aliases the stored array, so an in-place price sort
mutates the cached entry. -/

theorem sortResults_cache (st : EngineState) (ty : String) :
    (sortResults st ty).cache = st.cache := by
  unfold sortResults; dsimp only; split <;> [rfl; split <;> [rfl; split <;> rfl]]

theorem sortResults_searchTerm (st : EngineState) (ty : String) :
    (sortResults st ty).searchTerm = st.searchTerm := by
  unfold sortResults; dsimp only; split <;> [rfl; split <;> [rfl; split <;> rfl]]

theorem sortResults_currentRubro (st : EngineState) (ty : String) :
    (sortResults st ty).currentRubro = st.currentRubro := by
  unfold sortResults; dsimp only; split <;> [rfl; split <;> [rfl; split <;> rfl]]

/-- C10: when the key is in the cache with stored array `r`, a search (hit:
`state.results` becomes the stored array itself, not a copy) followed by a
manual ascending-price re-sort (in place) followed by another search of the
same key returns the stored list re-ordered by price — the cached entry was
mutated through the alias, so the later hit no longer yields the originally
stored score-descending order. -/
theorem cache_hit_aliasing (cfg : Config) (items : List Item)
    (ix : SearchIndex) (st : EngineState) (r : Nat)
    (hm : mapLookup st.cache st.cacheKey = some r) :
    (performSearch cfg items ix
        (sortResults (performSearch cfg items ix st) "price_asc")).currentResults =
      List.insertionSort priceAscRel (st.heap.getD r []) := by
  rw [performSearch_eq_of_hit cfg items ix st r hm]
  set s1 := renderResults cfg { st with resultsRef := r } with hs1
  have hs1heap : s1.heap = st.heap := by rw [hs1, renderResults_heap]
  have hs1ref : s1.resultsRef = r := by
    rw [hs1, renderResults_resultsRef]
  have hs1cur : s1.currentResults = st.heap.getD r [] := by
    unfold EngineState.currentResults
    rw [hs1heap, hs1ref]
  have hs1key : s1.cacheKey = st.cacheKey := by
    rw [hs1]
    unfold EngineState.cacheKey
    rw [renderResults_searchTerm, renderResults_currentRubro]
  have hs1cache : s1.cache = st.cache := by rw [hs1, renderResults_cache]
  by_cases hres : (st.heap.getD r []).isEmpty
  · have hsort : sortResults s1 "price_asc" = s1 := by
      unfold sortResults
      dsimp only
      rw [hs1cur, if_pos hres]
    rw [hsort]
    have hm2 : mapLookup s1.cache s1.cacheKey = some r := by
      rw [hs1key, hs1cache]
      exact hm
    rw [performSearch_eq_of_hit cfg items ix s1 r hm2]
    rw [renderResults_currentResults]
    unfold EngineState.currentResults
    dsimp only
    rw [hs1heap]
    rw [List.isEmpty_iff] at hres
    rw [hres]
    rfl
  · have hlt : r < st.heap.length := by
      by_contra hge
      push_neg at hge
      have hnone : st.heap.getD r [] = [] := by
        rw [List.getD_eq_getElem?_getD, List.getElem?_eq_none hge]
        rfl
      rw [hnone] at hres
      exact hres rfl
    set sortedR := List.insertionSort priceAscRel (st.heap.getD r []) with hsR
    set s2 : EngineState := { s1 with heap := s1.heap.set s1.resultsRef sortedR } with hs2
    have hsort : sortResults s1 "price_asc" = s2 := by
      unfold sortResults
      dsimp only
      rw [hs1cur, if_neg hres, if_pos rfl]
    rw [hsort]
    have hm3 : mapLookup s2.cache s2.cacheKey = some r := by
      have hc : s2.cache = s1.cache := by rw [hs2]
      have hk : s2.cacheKey = s1.cacheKey := by rw [hs2]; rfl
      rw [hc, hk, hs1key, hs1cache]
      exact hm
    rw [performSearch_eq_of_hit cfg items ix s2 r hm3]
    rw [renderResults_currentResults]
    unfold EngineState.currentResults
    dsimp only
    rw [hs1heap, hs1ref]
    rw [List.getD_eq_getElem?_getD, List.getElem?_set_self (by simpa using hlt)]
    rfl

/-- An otherwise-default item with a given price. -/
def itemWithPrice (q : ℚ) : Item := { (default : Item) with precio_venta := q }

/-- Stored result with the higher score but the higher price. -/
def storedHi : ScoredResult := ⟨0, itemWithPrice 200, Rat.divInt 9 10⟩

/-- Stored result with the lower score but the lower price. -/
def storedLo : ScoredResult := ⟨1, itemWithPrice 100, Rat.divInt 5 10⟩

/-- A state whose cache maps the key of `("q", "")` to a stored
score-descending list `[storedHi, storedLo]` at heap slot 1. -/
def aliasState : EngineState :=
  ⟨[[], [storedHi, storedLo]], 0, [("q-", 1)], "q", "", 0, false⟩

/-- C10 witness: at the concrete state the second hit returns the
price-ascending order, which differs from the stored score-descending
order. -/
theorem cache_hit_aliasing_witness :
    mapLookup aliasState.cache aliasState.cacheKey = some 1 ∧
    (performSearch CONFIG [] [] (sortResults (performSearch CONFIG [] [] aliasState)
      "price_asc")).currentResults = [storedLo, storedHi] ∧
    ([storedLo, storedHi] : List ScoredResult) ≠ [storedHi, storedLo] := by
  refine ⟨by decide, ?_, by decide⟩
  rw [cache_hit_aliasing CONFIG [] [] aliasState 1 (by decide)]
  decide

/-! C6: cache bound and insertion-order eviction. -/

/-- A hit leaves the cache untouched. -/
theorem performSearch_cache_of_hit (cfg : Config) (items : List Item)
    (ix : SearchIndex) (st : EngineState) (r : Nat)
    (hm : mapLookup st.cache st.cacheKey = some r) :
    (performSearch cfg items ix st).cache = st.cache := by
  rw [performSearch_eq_of_hit cfg items ix st r hm, renderResults_cache]

/-- A miss evicts the oldest entry when the cache is full, then appends
the new key. -/
theorem performSearch_cache_of_miss (cfg : Config) (items : List Item)
    (ix : SearchIndex) (st : EngineState)
    (hm : mapLookup st.cache st.cacheKey = none) :
    ∃ v, (performSearch cfg items ix st).cache =
      mapSet (if cfg.CACHE_SIZE ≤ st.cache.length then st.cache.drop 1
        else st.cache) st.cacheKey v := by
  rw [performSearch_eq_of_miss cfg items ix st hm, renderResults_cache]
  exact ⟨_, rfl⟩

/-- One search keeps the cache within a positive capacity. -/
theorem performSearch_cache_length (cfg : Config) (items : List Item)
    (ix : SearchIndex) (st : EngineState) (hpos : 1 ≤ cfg.CACHE_SIZE)
    (h : st.cache.length ≤ cfg.CACHE_SIZE) :
    (performSearch cfg items ix st).cache.length ≤ cfg.CACHE_SIZE := by
  cases hm : mapLookup st.cache st.cacheKey with
  | some r =>
    rw [performSearch_cache_of_hit cfg items ix st r hm]
    exact h
  | none =>
    obtain ⟨v, hv⟩ := performSearch_cache_of_miss cfg items ix st hm
    rw [hv]
    have hle := length_mapSet_le
      (if cfg.CACHE_SIZE ≤ st.cache.length then st.cache.drop 1 else st.cache)
      st.cacheKey v
    by_cases hc : cfg.CACHE_SIZE ≤ st.cache.length
    · rw [if_pos hc] at hle ⊢
      rw [List.length_drop] at hle
      omega
    · rw [if_neg hc] at hle ⊢
      omega

/-- Any sequence of searches keeps the cache within a positive capacity. -/
theorem runSearches_cache_length (cfg : Config) (items : List Item)
    (ix : SearchIndex) (hpos : 1 ≤ cfg.CACHE_SIZE) :
    ∀ (qs : List (String × String)) (st : EngineState),
      st.cache.length ≤ cfg.CACHE_SIZE →
      (runSearches cfg items ix qs st).cache.length ≤ cfg.CACHE_SIZE := by
  intro qs
  induction qs with
  | nil => intro st h; exact h
  | cons q qs ih =>
    intro st h
    have hstep : runSearches cfg items ix (q :: qs) st =
        runSearches cfg items ix qs (searchWith cfg items ix st q.1 q.2) := by
      unfold runSearches
      rw [List.foldl_cons]
    rw [hstep]
    exact ih _ (performSearch_cache_length cfg items ix _ hpos h)

/-- Searching a run of pairwise-distinct keys, none of which is cached yet,
makes the key list a sliding window over the concatenation of the existing
keys and the newly-inserted ones: everything except the last `CACHE_SIZE`
keys has been evicted, oldest first. -/
theorem runSearches_cache_keys (cfg : Config) (items : List Item)
    (ix : SearchIndex) (hpos : 1 ≤ cfg.CACHE_SIZE) :
    ∀ (qs : List (String × String)) (st : EngineState),
      (qs.map keyOf).Nodup →
      (∀ qc ∈ qs, mapLookup st.cache (keyOf qc) = none) →
      st.cache.length ≤ cfg.CACHE_SIZE →
      (runSearches cfg items ix qs st).cache.map Prod.fst =
        (st.cache.map Prod.fst ++ qs.map keyOf).drop
          ((st.cache.length + qs.length) - cfg.CACHE_SIZE) := by
  intro qs
  induction qs with
  | nil =>
    intro st _ _ h
    have h0 : st.cache.length + ([] : List (String × String)).length -
        cfg.CACHE_SIZE = 0 := by
      simp only [List.length_nil]
      omega
    rw [h0]
    simp [runSearches]
  | cons q qs ih =>
    intro st hnd hfresh hlen
    have hstep : runSearches cfg items ix (q :: qs) st =
        runSearches cfg items ix qs (searchWith cfg items ix st q.1 q.2) := by
      unfold runSearches
      rw [List.foldl_cons]
    rw [hstep]
    set stq : EngineState := { st with searchTerm := q.1, currentRubro := q.2 } with hstq
    have hmq : mapLookup stq.cache stq.cacheKey = none :=
      hfresh q (List.mem_cons_self q qs)
    obtain ⟨v, hv⟩ := performSearch_cache_of_miss cfg items ix stq hmq
    have hkeynotmem : keyOf q ∉ st.cache.map Prod.fst :=
      (mapLookup_eq_none_iff _ _).mp (hfresh q (List.mem_cons_self q qs))
    have hkeynotmem2 : keyOf q ∉
        ((if cfg.CACHE_SIZE ≤ st.cache.length then st.cache.drop 1
          else st.cache).map Prod.fst) := by
      split
      · intro hmem
        rw [List.map_drop] at hmem
        exact hkeynotmem (List.drop_subset _ _ hmem)
      · exact hkeynotmem
    have hkeys1 : (searchWith cfg items ix st q.1 q.2).cache.map Prod.fst =
        ((if cfg.CACHE_SIZE ≤ st.cache.length then st.cache.drop 1
          else st.cache).map Prod.fst) ++ [keyOf q] := by
      show (performSearch cfg items ix stq).cache.map Prod.fst = _
      rw [hv]
      exact mapSet_map_fst_of_not_mem _ _ _ hkeynotmem2
    have hnd' : (keyOf q :: qs.map keyOf).Nodup := by
      rw [← List.map_cons]
      exact hnd
    rw [List.nodup_cons] at hnd'
    have hlen1 : (searchWith cfg items ix st q.1 q.2).cache.length ≤
        cfg.CACHE_SIZE :=
      performSearch_cache_length cfg items ix stq hpos hlen
    have hfresh2 : ∀ qc ∈ qs,
        mapLookup (searchWith cfg items ix st q.1 q.2).cache (keyOf qc) = none := by
      intro qc hqc
      rw [mapLookup_eq_none_iff, hkeys1]
      intro hmem
      rcases List.mem_append.mp hmem with h1 | h1
      · have hsub : keyOf qc ∈ st.cache.map Prod.fst := by
          revert h1
          split
          · intro h1
            rw [List.map_drop] at h1
            exact List.drop_subset _ _ h1
          · intro h1
            exact h1
        exact (mapLookup_eq_none_iff _ _).mp
          (hfresh qc (List.mem_cons_of_mem q hqc)) hsub
      · rw [List.mem_singleton] at h1
        exact hnd'.1 (h1 ▸ List.mem_map.mpr ⟨qc, hqc, rfl⟩)
    have hIH := ih (searchWith cfg items ix st q.1 q.2) hnd'.2 hfresh2 hlen1
    rw [hIH, hkeys1]
    have hlencache : (searchWith cfg items ix st q.1 q.2).cache.length =
        ((if cfg.CACHE_SIZE ≤ st.cache.length then st.cache.drop 1
          else st.cache).map Prod.fst).length + 1 := by
      have h1 := congrArg List.length hkeys1
      rw [List.length_map] at h1
      rw [h1, List.length_append, List.length_map]
      simp [List.length_map]
    rw [hlencache]
    have hKlen : (st.cache.map Prod.fst).length = st.cache.length :=
      List.length_map _ _
    by_cases hc : cfg.CACHE_SIZE ≤ st.cache.length
    · have hE : (if cfg.CACHE_SIZE ≤ st.cache.length then st.cache.drop 1
          else st.cache).map Prod.fst = (st.cache.map Prod.fst).drop 1 := by
        rw [if_pos hc, List.map_drop]
      rw [hE]
      have hlenE : ((st.cache.map Prod.fst).drop 1).length =
          st.cache.length - 1 := by
        rw [List.length_drop, hKlen]
      rw [hlenE]
      have hlist : (((st.cache.map Prod.fst).drop 1 ++ [keyOf q]) ++
          qs.map keyOf) = (st.cache.map Prod.fst).drop 1 ++
          (keyOf q :: qs.map keyOf) := by
        rw [List.append_assoc, List.singleton_append]
      rw [hlist]
      have hamount : st.cache.length - 1 + 1 + qs.length - cfg.CACHE_SIZE =
          st.cache.length + qs.length - cfg.CACHE_SIZE := by
        omega
      rw [hamount]
      rw [List.map_cons, List.length_cons]
      have hb : st.cache.length + (qs.length + 1) - cfg.CACHE_SIZE =
          1 + (st.cache.length + qs.length - cfg.CACHE_SIZE) := by
        omega
      rw [hb, ← List.drop_drop]
      have hsplit1 : (st.cache.map Prod.fst ++ (keyOf q :: qs.map keyOf)).drop 1 =
          (st.cache.map Prod.fst).drop 1 ++ (keyOf q :: qs.map keyOf) := by
        rw [List.drop_append_eq_append_drop]
        have h10 : 1 - (st.cache.map Prod.fst).length = 0 := by
          rw [hKlen]
          omega
        rw [h10, List.drop_zero]
      rw [hsplit1]
    · have hE : (if cfg.CACHE_SIZE ≤ st.cache.length then st.cache.drop 1
          else st.cache).map Prod.fst = st.cache.map Prod.fst := by
        rw [if_neg hc]
      rw [hE]
      rw [List.map_cons, List.length_cons, List.append_assoc,
        List.singleton_append]
      congr 1
      rw [hKlen]
      omega

/-- C6: after any sequence of search invocations from a fresh engine the
cache holds at most `CACHE_SIZE` = 50 entries; and once more distinct
`(query, category)` keys have been searched than the capacity, the
earliest-inserted key is no longer present. -/
theorem cache_bound_and_eviction (items : List Item) (ix : SearchIndex)
    (qs : List (String × String)) :
    (runSearches CONFIG items ix qs initState).cache.length ≤ 50 ∧
    ((qs.map keyOf).Nodup → 50 < qs.length →
      ∀ qc0, qs.head? = some qc0 →
        mapLookup (runSearches CONFIG items ix qs initState).cache
          (keyOf qc0) = none) := by
  constructor
  · exact runSearches_cache_length CONFIG items ix (by decide) qs initState
      (by decide)
  · intro hnd hlen qc0 hhead
    cases qs with
    | nil => simp at hlen
    | cons q qs' =>
      have hq0 : q = qc0 := by simpa using hhead
      subst hq0
      have hkeys := runSearches_cache_keys CONFIG items ix (by decide)
        (q :: qs') initState hnd (by intro qc _; rfl) (by decide)
      rw [mapLookup_eq_none_iff, hkeys]
      have h0 : initState.cache.map Prod.fst = [] := rfl
      have h1 : initState.cache.length = 0 := rfl
      rw [h0, h1, List.nil_append, List.map_cons]
      have hC : CONFIG.CACHE_SIZE = 50 := rfl
      rw [hC]
      have hm : 0 + (q :: qs').length - 50 = (qs'.length - 50) + 1 := by
        simp only [List.length_cons]
        have : 50 < qs'.length + 1 := by simpa using hlen
        omega
      rw [hm, List.drop_succ_cons]
      intro hmem
      have hmem' := List.drop_subset _ _ hmem
      rw [List.map_cons, List.nodup_cons] at hnd
      exact hnd.1 hmem'

/-- Fifty-one searches with pairwise-distinct queries. -/
def qs51 : List (String × String) :=
  [("q00", ""), ("q01", ""), ("q02", ""), ("q03", ""), ("q04", ""), ("q05", ""), ("q06", ""), ("q07", ""), ("q08", ""), ("q09", ""), ("q10", ""), ("q11", ""), ("q12", ""), ("q13", ""), ("q14", ""), ("q15", ""), ("q16", ""), ("q17", ""), ("q18", ""), ("q19", ""), ("q20", ""), ("q21", ""), ("q22", ""), ("q23", ""), ("q24", ""), ("q25", ""), ("q26", ""), ("q27", ""), ("q28", ""), ("q29", ""), ("q30", ""), ("q31", ""), ("q32", ""), ("q33", ""), ("q34", ""), ("q35", ""), ("q36", ""), ("q37", ""), ("q38", ""), ("q39", ""), ("q40", ""), ("q41", ""), ("q42", ""), ("q43", ""), ("q44", ""), ("q45", ""), ("q46", ""), ("q47", ""), ("q48", ""), ("q49", ""), ("q50", "")]

/-- C6 witness: after the 51 distinct searches the first key is evicted. -/
theorem cache_bound_and_eviction_witness :
    ((qs51.map keyOf).Nodup ∧ 50 < qs51.length ∧
      qs51.head? = some ("q00", "")) ∧
    mapLookup (runSearches CONFIG [] [] qs51 initState).cache
      (keyOf ("q00", "")) = none := by
  refine ⟨⟨by decide, by decide, by decide⟩, ?_⟩
  exact (cache_bound_and_eviction [] [] qs51).2 (by decide) (by decide)
    ("q00", "") (by decide)
